import Mathlib

/-!
# Verification of the chess-analytics normalization and aggregation core

A shallow embedding of the repository's core pipeline:

* `src/lib/types.ts` — the `NormalizedGame` value object;
* `src/lib/stats.ts` — the statistics aggregator (`winRate`,
  `buildOpeningMap`, `computeStats`);
* `src/lib/normalize.ts` — the two platform record parsers
  (`normalizeChessComGame`, `normalizeLichessGame`) together with their
  string-scanning helpers.

Numbers: the JavaScript source computes rates with IEEE doubles; here they
are embedded as exact rationals, with `Math.round` modelled exactly as
`⌊x + 1/2⌋` (its behaviour on the non-negative values arising here).
JavaScript's insertion-ordered `Map` is embedded as an association list,
its stable `Array.prototype.sort` as `List.insertionSort` with the
comparator's "comes no later than" relation, and the regular-expression
scans of `normalize.ts` as structurally recursive character-list scanners
with the same matching semantics.  `Date.toISOString` is injective on
instants, so the `date` field is embedded as the epoch-millisecond instant
it renders.
-/

namespace ChessAnalytics

/-! ## Data model (`src/lib/types.ts`) -/

/-- `platform: "chess.com" | "lichess"`. -/
inductive Platform
  | chesscom
  | lichess
deriving DecidableEq

/-- `result: "Win" | "Loss" | "Draw"`. -/
inductive GameResult
  | Win
  | Loss
  | Draw
deriving DecidableEq

/-- `color: "White" | "Black"`. -/
inductive Color
  | White
  | Black
deriving DecidableEq

/-- `NormalizedGame` from `src/lib/types.ts`; `date` holds the epoch
milliseconds of the ISO instant string. -/
structure NormalizedGame where
  platform : Platform
  result : GameResult
  color : Color
  opening : String
  date : Int
  moves : Nat
deriving DecidableEq

/-! ## Statistics aggregator (`src/lib/stats.ts`) -/

/-- `OpeningStats` from `src/lib/stats.ts`. -/
structure OpeningStats where
  name : String
  total : Nat
  wins : Nat
  losses : Nat
  draws : Nat
  winRate : ℚ
deriving DecidableEq

/-- `GameStats` from `src/lib/stats.ts`.  These are all the fields the
interface declares. -/
structure GameStats where
  totalGames : Nat
  overallWinRate : ℚ
  winRateWhite : ℚ
  winRateBlack : ℚ
  wins : Nat
  losses : Nat
  draws : Nat
  whiteGames : Nat
  whiteWins : Nat
  blackGames : Nat
  blackWins : Nat
  avgGameLength : ℚ
  mostPlayedOpenings : List OpeningStats
  bestOpening : Option OpeningStats
  worstOpening : Option OpeningStats
deriving DecidableEq

/-- `Math.round` on the non-negative rationals produced here. -/
def jsRound (q : ℚ) : ℤ := ⌊q + 1 / 2⌋

/-- `winRate(wins, total)`: `0` when `total === 0`, otherwise
`Math.round((wins / total) * 1000) / 10`. -/
def winRate (wins total : ℕ) : ℚ :=
  if total = 0 then 0 else (jsRound ((wins : ℚ) / (total : ℚ) * 1000) : ℚ) / 10

/-- The per-game increment done by the loop body of `buildOpeningMap`:
`entry.total++` followed by one of `wins++` / `losses++` / `draws++`. -/
def tallyResult (e : OpeningStats) (r : GameResult) : OpeningStats :=
  { e with
    total := e.total + 1
    wins := if r = GameResult.Win then e.wins + 1 else e.wins
    losses := if r = GameResult.Loss then e.losses + 1 else e.losses
    draws := if r ≠ GameResult.Win ∧ r ≠ GameResult.Loss then e.draws + 1 else e.draws }

/-- One iteration of the `for (const game of games)` loop of
`buildOpeningMap`: fetch-or-create the entry keyed by
`game.opening || "Unknown"`, then bump its counters.  The insertion-ordered
`Map` is an association list. -/
def addGameToMap (m : List OpeningStats) (game : NormalizedGame) : List OpeningStats :=
  let name := if game.opening = "" then "Unknown" else game.opening
  let m' :=
    if m.any (fun e => e.name = name) then m
    else m ++ [{ name := name, total := 0, wins := 0, losses := 0, draws := 0, winRate := 0 }]
  m'.map (fun e => if e.name = name then tallyResult e game.result else e)

/-- `buildOpeningMap`: tally every game, then set each entry's
`winRate`. -/
def buildOpeningMap (games : List NormalizedGame) : List OpeningStats :=
  (games.foldl addGameToMap []).map (fun e => { e with winRate := winRate e.wins e.total })

/-- `const MIN_GAMES_FOR_BEST_WORST = 2`. -/
def MIN_GAMES_FOR_BEST_WORST : Nat := 2

/-- The `reduce` callback selecting `bestOpening`. -/
def bestReducer (best o : OpeningStats) : OpeningStats :=
  if o.winRate > best.winRate ∨ (o.winRate = best.winRate ∧ o.total > best.total) then o
  else best

/-- The `reduce` callback selecting `worstOpening`. -/
def worstReducer (worst o : OpeningStats) : OpeningStats :=
  if o.winRate < worst.winRate ∨ (o.winRate = worst.winRate ∧ o.total > worst.total) then o
  else worst

/-- `Array.prototype.reduce` with no initial value (only ever called on a
non-empty array in the source). -/
def jsReduce {α : Type} (f : α → α → α) : List α → Option α
  | [] => none
  | x :: xs => some (xs.foldl f x)

/-- `computeStats` from `src/lib/stats.ts`.  The three `sort` calls copy
the array first (`[...allOpenings]`), so they are value-level here;
JavaScript's stable sort is `List.insertionSort` with the relation
"the comparator does not order this pair the other way round". -/
def computeStats (games : List NormalizedGame) : GameStats :=
  let totalGames := games.length
  let wins := (games.filter (fun g => g.result = GameResult.Win)).length
  let losses := (games.filter (fun g => g.result = GameResult.Loss)).length
  let draws := (games.filter (fun g => g.result = GameResult.Draw)).length
  let whiteGames := games.filter (fun g => g.color = Color.White)
  let blackGames := games.filter (fun g => g.color = Color.Black)
  let whiteWins := (whiteGames.filter (fun g => g.result = GameResult.Win)).length
  let blackWins := (blackGames.filter (fun g => g.result = GameResult.Win)).length
  let totalMoves : Nat := games.foldl (fun sum g => sum + g.moves) 0
  let avgGameLength : ℚ :=
    if totalGames > 0 then (jsRound ((totalMoves : ℚ) / (totalGames : ℚ) * 10) : ℚ) / 10 else 0
  let allOpenings := buildOpeningMap games
  let mostPlayedOpenings :=
    (List.insertionSort (fun a b => b.total ≤ a.total) allOpenings).take 5
  let qualifiedOpenings := allOpenings.filter (fun o => o.total ≥ MIN_GAMES_FOR_BEST_WORST)
  let bestOpening :=
    if qualifiedOpenings.length > 0 then jsReduce bestReducer qualifiedOpenings
    else if allOpenings.length > 0 then
      (List.insertionSort (fun a b : OpeningStats => b.winRate ≤ a.winRate) allOpenings).head?
    else none
  let worstOpening :=
    if qualifiedOpenings.length > 0 then jsReduce worstReducer qualifiedOpenings
    else if allOpenings.length > 0 then
      (List.insertionSort (fun a b : OpeningStats => a.winRate ≤ b.winRate) allOpenings).head?
    else none
  { totalGames := totalGames
    overallWinRate := winRate wins totalGames
    winRateWhite := winRate whiteWins whiteGames.length
    winRateBlack := winRate blackWins blackGames.length
    wins := wins
    losses := losses
    draws := draws
    whiteGames := whiteGames.length
    whiteWins := whiteWins
    blackGames := blackGames.length
    blackWins := blackWins
    avgGameLength := avgGameLength
    mostPlayedOpenings := mostPlayedOpenings
    bestOpening := bestOpening
    worstOpening := worstOpening }

/-! ## String-scanning helpers for `src/lib/normalize.ts`

The regular-expression and URL operations of the source are embedded as
structurally recursive scanners over character lists with the same
matching semantics (noted case by case below). -/

/-- `String.prototype.toLowerCase` on one character, for the ASCII
usernames handled here (the Unicode case mappings are not modelled). -/
def jsCharLower (c : Char) : Char :=
  if 'A' ≤ c ∧ c ≤ 'Z' then Char.ofNat (c.toNat + 32) else c

/-- `String.prototype.toLowerCase` (ASCII model). -/
def jsToLower (s : String) : String :=
  String.mk (s.toList.map jsCharLower)

/-- The characters of JavaScript's `\s` class that occur in the ASCII
inputs handled here (the exotic Unicode members are not modelled). -/
def jsWhitespaceChar (c : Char) : Bool :=
  c == ' ' || c == '\t' || c == '\n' || c == '\r' || c == '\x0b' || c == '\x0c'

/-- `String.prototype.trim` on a character list. -/
def jsTrim (l : List Char) : List Char :=
  ((l.dropWhile jsWhitespaceChar).reverse.dropWhile jsWhitespaceChar).reverse

/-- Split a list at the first occurrence of the (non-empty) pattern `sep`:
`some (before, after)` when found. -/
def breakOnSub (sep : List Char) : List Char → Option (List Char × List Char)
  | [] => if sep.isEmpty then some ([], []) else none
  | c :: rest =>
    if sep.isPrefixOf (c :: rest) then some ([], (c :: rest).drop sep.length)
    else
      match breakOnSub sep rest with
      | some (pre, post) => some (c :: pre, post)
      | none => none

/-- `str.split(sep)[1] ?? ""`: the text between the first occurrence of
`sep` and the following one (to the end when there is no second
occurrence; `[]` when `sep` does not occur at all). -/
def splitIndexOne (sep l : List Char) : List Char :=
  match breakOnSub sep l with
  | none => []
  | some (_, post) =>
    match breakOnSub sep post with
    | none => post
    | some (pre2, _) => pre2

/-- Model of the WHATWG `new URL(u).pathname` for the absolute
`scheme://host/path` URLs this code receives: `none` models the
constructor throwing (no `://` separator or empty scheme).  Query and
fragment are cut off; percent-encoding is not modelled (the inputs used
here are plain ASCII without reserved characters). -/
def urlPathname (s : String) : Option String :=
  match breakOnSub "://".toList s.toList with
  | none => none
  | some (scheme, rest) =>
    if scheme.isEmpty then none
    else
      let cut := (rest.takeWhile (fun c => c != '#')).takeWhile (fun c => c != '?')
      let path := cut.dropWhile (fun c => c != '/')
      some (String.mk (if path.isEmpty then ['/'] else path))

/-- The source's first `replace` (pattern: hyphen followed by a digit,
replacement: space plus that digit, global): each hyphen directly before
a digit becomes a space. -/
def replaceHyphenDigit : List Char → List Char
  | [] => []
  | '-' :: c :: rest =>
    if c.isDigit then ' ' :: c :: replaceHyphenDigit rest
    else '-' :: replaceHyphenDigit (c :: rest)
  | c :: rest => c :: replaceHyphenDigit rest

/-- The source's second `replace` (every hyphen, globally, by a
space). -/
def replaceHyphens (l : List Char) : List Char :=
  l.map (fun c => if c = '-' then ' ' else c)

/-- `parseOpeningFromEcoUrl` from `src/lib/normalize.ts`. -/
def parseOpeningFromEcoUrl (ecoUrl : String) : String :=
  match urlPathname ecoUrl with
  | none => "Unknown"
  | some pathname =>
    let path := splitIndexOne "/openings/".toList pathname.toList
    let cleaned := replaceHyphens (replaceHyphenDigit path)
    if cleaned.isEmpty then "Unknown" else String.mk cleaned

/-- Attempt the PGN header pattern `\[TAG\s+"([^"]+)"\]` at the start of
`l`, returning the capture group.  The greedy `\s+` and `[^"]+` runs are
maximal munches (each is followed by a character its class excludes, so
no backtracking arises). -/
def matchTagAt (tag : List Char) (l : List Char) : Option (List Char) :=
  match l with
  | '[' :: rest =>
    if tag.isPrefixOf rest then
      let afterTag := rest.drop tag.length
      let ws := afterTag.takeWhile jsWhitespaceChar
      let afterWs := afterTag.dropWhile jsWhitespaceChar
      if ws.isEmpty then none
      else
        match afterWs with
        | '"' :: body0 =>
          let body := body0.takeWhile (fun c => c != '"')
          let afterBody := body0.dropWhile (fun c => c != '"')
          if body.isEmpty then none
          else
            match afterBody with
            | '"' :: ']' :: _ => some body
            | _ => none
        | _ => none
    else none
  | _ => none

/-- First match of `\[TAG\s+"([^"]+)"\]` in `l` (the regex engine's
left-to-right position scan). -/
def findTag (tag : List Char) : List Char → Option (List Char)
  | [] => none
  | c :: rest =>
    match matchTagAt tag (c :: rest) with
    | some body => some body
    | none => findTag tag rest

/-- `parseOpeningFromPgn` from `src/lib/normalize.ts`. -/
def parseOpeningFromPgn (pgn : String) : String :=
  match findTag "Opening".toList pgn.toList with
  | some body => String.mk body
  | none =>
    match findTag "ECOUrl".toList pgn.toList with
    | some body => parseOpeningFromEcoUrl (String.mk body)
    | none =>
      match findTag "ECO".toList pgn.toList with
      | some body => String.mk body
      | none => "Unknown"

/-- Scanner state for `.replace(/\[.*?\]\s*/g, "")`. -/
inductive StripMode
  | normal
  | inBracket (pending : List Char)
  | skipWs
deriving DecidableEq

/-- `.replace(/\[.*?\]\s*/g, "")`: drop each bracket group that closes
before a line terminator, together with the whitespace run after it.
`inBracket pending` holds the characters read since an unclosed `[`;
since `.` excludes line terminators, an unmatched `[` whose scan hits a
newline or the end is emitted verbatim (no later `[` inside `pending`
can start a match either, as it faces the same terminator first). -/
def stripGo : StripMode → List Char → List Char
  | StripMode.normal, [] => []
  | StripMode.normal, c :: rest =>
    if c = '[' then stripGo (StripMode.inBracket []) rest
    else c :: stripGo StripMode.normal rest
  | StripMode.inBracket pending, [] => '[' :: pending.reverse
  | StripMode.inBracket pending, c :: rest =>
    if c = ']' then stripGo StripMode.skipWs rest
    else if c = '\n' ∨ c = '\r' then ('[' :: pending.reverse) ++ c :: stripGo StripMode.normal rest
    else stripGo (StripMode.inBracket (c :: pending)) rest
  | StripMode.skipWs, [] => []
  | StripMode.skipWs, c :: rest =>
    if jsWhitespaceChar c then stripGo StripMode.skipWs rest
    else if c = '[' then stripGo (StripMode.inBracket []) rest
    else c :: stripGo StripMode.normal rest

/-- `pgn.replace(/\[.*?\]\s*/g, "")`. -/
def stripPgnHeaders (l : List Char) : List Char :=
  stripGo StripMode.normal l

/-- `parseInt` on a digit run. -/
def digitsToNat (l : List Char) : Nat :=
  l.foldl (fun acc c => acc * 10 + (c.toNat - '0'.toNat)) 0

/-- Scanner for `movesSection.match(/(\d+)\./g)`: `digits` is the current
maximal digit run; a following `.` completes a match whose numeric value
is recorded. -/
def moveNumsGo (found : List Nat) (digits : List Char) : List Char → List Nat
  | [] => found.reverse
  | c :: rest =>
    if c.isDigit then moveNumsGo found (digits ++ [c]) rest
    else if c = '.' ∧ digits ≠ [] then moveNumsGo (digitsToNat digits :: found) [] rest
    else moveNumsGo found [] rest

/-- All matches of `/(\d+)\./g`, as numbers, in match order. -/
def findMoveNumbers (l : List Char) : List Nat :=
  moveNumsGo [] [] l

/-- `countMovesFromPgn` from `src/lib/normalize.ts`: strip the bracketed
header lines, trim, and take the largest `<n>.` move marker (0 when there
is none, or when the stripped text is empty). -/
def countMovesFromPgn (pgn : String) : Nat :=
  let movesSection := jsTrim (stripPgnHeaders pgn.toList)
  if movesSection.isEmpty then 0
  else
    let moveNumbers := findMoveNumbers movesSection
    if moveNumbers.isEmpty then 0
    else moveNumbers.foldl max 0

/-- JavaScript truthiness of an optional string (`undefined` and `""` are
falsy). -/
def truthyString : Option String → Option String
  | some s => if s = "" then none else some s
  | none => none

/-! ## Chess.com record parser (`src/lib/normalize.ts`) -/

/-- `ChessComPlayer` (the fields the parser reads). -/
structure ChessComPlayer where
  username : String
  result : String
  rating : Int
deriving DecidableEq

/-- `ChessComGame` raw record shape. -/
structure ChessComGame where
  white : ChessComPlayer
  black : ChessComPlayer
  end_time : Int
  pgn : Option String
  eco : Option String
deriving DecidableEq

/-- `CHESSCOM_DRAW_RESULTS`. -/
def CHESSCOM_DRAW_RESULTS : List String :=
  ["stalemate", "insufficient", "agreed", "repetition", "50move", "timevsinsufficient"]

/-- `parseChessComResult` from `src/lib/normalize.ts`. -/
def parseChessComResult (playerResult : String) : GameResult :=
  if playerResult = "win" then GameResult.Win
  else if CHESSCOM_DRAW_RESULTS.contains playerResult then GameResult.Draw
  else GameResult.Loss

/-- `normalizeChessComGame` from `src/lib/normalize.ts`.  The two
`if (game.eco)` / `if (game.pgn)` truthiness tests go through
`truthyString`. -/
def normalizeChessComGame (game : ChessComGame) (username : String) : NormalizedGame :=
  let isWhite : Bool := jsToLower game.white.username == jsToLower username
  let color : Color := if isWhite then Color.White else Color.Black
  let playerResult := if isWhite then game.white.result else game.black.result
  let opening :=
    match truthyString game.eco with
    | some e => parseOpeningFromEcoUrl e
    | none =>
      match truthyString game.pgn with
      | some p => parseOpeningFromPgn p
      | none => "Unknown"
  let moves :=
    match truthyString game.pgn with
    | some p => countMovesFromPgn p
    | none => 0
  { platform := Platform.chesscom
    result := parseChessComResult playerResult
    color := color
    opening := opening
    date := game.end_time * 1000
    moves := moves }

/-! ## Lichess record parser (`src/lib/normalize.ts`) -/

/-- `winner?: "white" | "black"`. -/
inductive LichessColor
  | white
  | black
deriving DecidableEq

/-- The `user` descriptor of a `LichessPlayer`. -/
structure LichessUser where
  name : String
  id : String
deriving DecidableEq

/-- `LichessPlayer` raw shape. -/
structure LichessPlayer where
  user : Option LichessUser
  rating : Option Int
  aiLevel : Option Int
deriving DecidableEq

/-- The `players` pair of a `LichessGame`. -/
structure LichessPlayers where
  white : LichessPlayer
  black : LichessPlayer
deriving DecidableEq

/-- The `opening` descriptor of a `LichessGame`. -/
structure LichessOpening where
  eco : String
  name : String
  ply : Nat
deriving DecidableEq

/-- `LichessGame` raw record shape. -/
structure LichessGame where
  players : LichessPlayers
  winner : Option LichessColor
  status : String
  opening : Option LichessOpening
  createdAt : Int
  moves : Option String
  lastMoveAt : Option Int
deriving DecidableEq

/-- `game.players.<side>.user?.name ?? game.players.<side>.user?.id ?? ""`
(the declared shape makes `name` non-optional whenever `user` exists, so
the `id` fallback never fires). -/
def lichessDisplayName (p : LichessPlayer) : String :=
  match p.user with
  | some u => u.name
  | none => ""

/-- The side-resolution comparison of `normalizeLichessGame`. -/
def lichessIsWhite (game : LichessGame) (username : String) : Bool :=
  jsToLower (lichessDisplayName game.players.white) == jsToLower username

/-- The viewer's resolved side (`userColor` in the source). -/
def lichessUserColor (game : LichessGame) (username : String) : LichessColor :=
  if lichessIsWhite game username then LichessColor.white else LichessColor.black

/-- Scanner for `str.split(/\s+/)`: split at maximal whitespace runs,
with an empty leading (resp. trailing) piece when the string starts
(resp. ends) with whitespace, and `[""]` on the empty string. -/
def splitWsGo (tokens : List (List Char)) (acc : List Char) (inWs : Bool) :
    List Char → List (List Char)
  | [] => tokens ++ [acc.reverse]
  | c :: rest =>
    if jsWhitespaceChar c then
      if inWs then splitWsGo tokens acc true rest
      else splitWsGo (tokens ++ [acc.reverse]) [] true rest
    else splitWsGo tokens (c :: acc) false rest

/-- `str.split(/\s+/)` on a character list. -/
def jsSplitWs (l : List Char) : List (List Char) :=
  splitWsGo [] [] false l

/-- `normalizeLichessGame` from `src/lib/normalize.ts`. -/
def normalizeLichessGame (game : LichessGame) (username : String) : NormalizedGame :=
  let isWhite : Bool := lichessIsWhite game username
  let color : Color := if isWhite then Color.White else Color.Black
  let result : GameResult :=
    match game.winner with
    | none => GameResult.Draw
    | some w => if w = lichessUserColor game username then GameResult.Win else GameResult.Loss
  let opening :=
    match game.opening with
    | some o => o.name
    | none => "Unknown"
  let moves :=
    match truthyString game.moves with
    | some s =>
      let halfMoves := (jsSplitWs (jsTrim s.toList)).length
      (halfMoves + 1) / 2
    | none =>
      match game.opening with
      | some o => if o.ply ≠ 0 then (o.ply + 1) / 2 else 0
      | none => 0
  { platform := Platform.lichess
    result := result
    color := color
    opening := opening
    date := game.createdAt
    moves := moves }

/-! ## Basic lemmas about the aggregator -/

theorem winRate_total_zero (w : ℕ) : winRate w 0 = 0 := rfl

theorem jsRound_nonneg {q : ℚ} (h : 0 ≤ q) : 0 ≤ jsRound q := by
  unfold jsRound
  exact Int.le_floor.mpr (by push_cast; linarith)

theorem jsRound_le_1000 {q : ℚ} (h : q ≤ 1000) : jsRound q ≤ 1000 := by
  unfold jsRound
  have h2 : ⌊q + 1 / 2⌋ ≤ ⌊(2001 : ℚ) / 2⌋ := Int.floor_le_floor (by linarith)
  have h3 : ⌊(2001 : ℚ) / 2⌋ = 1000 := by norm_num
  omega

theorem winRate_nonneg (w t : ℕ) : 0 ≤ winRate w t := by
  unfold winRate
  split
  · exact le_refl 0
  · have h0 : (0 : ℚ) ≤ (w : ℚ) / (t : ℚ) * 1000 := by positivity
    have h1 : (0 : ℤ) ≤ jsRound ((w : ℚ) / (t : ℚ) * 1000) := jsRound_nonneg h0
    have h2 : (0 : ℚ) ≤ (jsRound ((w : ℚ) / (t : ℚ) * 1000) : ℚ) := by exact_mod_cast h1
    linarith

theorem winRate_le_100 {w t : ℕ} (h : w ≤ t) : winRate w t ≤ 100 := by
  unfold winRate
  split
  · norm_num
  · rename_i ht
    have htq : (0 : ℚ) < (t : ℚ) := by
      exact_mod_cast Nat.pos_of_ne_zero ht
    have hdiv : (w : ℚ) / (t : ℚ) ≤ 1 := by
      rw [div_le_one htq]
      exact_mod_cast h
    have hq : (w : ℚ) / (t : ℚ) * 1000 ≤ 1000 := by linarith
    have h1 : jsRound ((w : ℚ) / (t : ℚ) * 1000) ≤ 1000 := jsRound_le_1000 hq
    have h2 : (jsRound ((w : ℚ) / (t : ℚ) * 1000) : ℚ) ≤ 1000 := by exact_mod_cast h1
    linarith

/-- The per-entry bookkeeping invariant of the opening table. -/
def entryInv (o : OpeningStats) : Prop :=
  o.wins + o.losses + o.draws = o.total

theorem tallyResult_entryInv {e : OpeningStats} (r : GameResult) (h : entryInv e) :
    entryInv (tallyResult e r) := by
  cases r <;> simp [entryInv, tallyResult] at h ⊢ <;> omega

theorem addGameToMap_inv {m : List OpeningStats} (g : NormalizedGame)
    (h : ∀ o ∈ m, entryInv o ∧ 1 ≤ o.total) :
    ∀ o ∈ addGameToMap m g, entryInv o ∧ 1 ≤ o.total := by
  intro o ho
  unfold addGameToMap at ho
  simp only [List.mem_map] at ho
  obtain ⟨e, he, rfl⟩ := ho
  set nm := if g.opening = "" then "Unknown" else g.opening with hnm
  have hmem : e ∈ m ∨ e = (⟨nm, 0, 0, 0, 0, 0⟩ : OpeningStats) := by
    by_cases hany : (m.any fun e => e.name = nm) = true
    · rw [if_pos hany] at he
      exact Or.inl he
    · rw [if_neg hany] at he
      rcases List.mem_append.mp he with h' | h'
      · exact Or.inl h'
      · simp only [List.mem_singleton] at h'
        exact Or.inr h'
  by_cases hn : e.name = nm
  · rw [if_pos hn]
    have hinv : entryInv e := by
      rcases hmem with h' | h'
      · exact (h e h').1
      · subst h'
        simp [entryInv]
    exact ⟨tallyResult_entryInv _ hinv, by simp [tallyResult]⟩
  · rw [if_neg hn]
    rcases hmem with h' | h'
    · exact h e h'
    · subst h'
      simp at hn

theorem foldl_addGameToMap_inv (games : List NormalizedGame) (init : List OpeningStats)
    (h : ∀ o ∈ init, entryInv o ∧ 1 ≤ o.total) :
    ∀ o ∈ games.foldl addGameToMap init, entryInv o ∧ 1 ≤ o.total := by
  induction games generalizing init with
  | nil => exact h
  | cons g gs ih =>
    exact ih (addGameToMap init g) (addGameToMap_inv g h)

/-- Every entry of the opening table balances its counters, has seen at
least one game, and carries the `winRate` of its own counters. -/
theorem buildOpeningMap_spec (games : List NormalizedGame) :
    ∀ o ∈ buildOpeningMap games,
      entryInv o ∧ 1 ≤ o.total ∧ o.winRate = winRate o.wins o.total := by
  intro o ho
  unfold buildOpeningMap at ho
  simp only [List.mem_map] at ho
  obtain ⟨e, he, rfl⟩ := ho
  rcases foldl_addGameToMap_inv games [] (by simp) e he with ⟨h1, h2⟩
  exact ⟨h1, h2, rfl⟩

theorem entryInv_wins_le {o : OpeningStats} (h : entryInv o) : o.wins ≤ o.total := by
  unfold entryInv at h
  omega

/-! ## Projection lemmas for `computeStats` -/

theorem computeStats_totalGames (games : List NormalizedGame) :
    (computeStats games).totalGames = games.length := rfl

theorem computeStats_wins (games : List NormalizedGame) :
    (computeStats games).wins
      = (games.filter (fun g => g.result = GameResult.Win)).length := rfl

theorem computeStats_losses (games : List NormalizedGame) :
    (computeStats games).losses
      = (games.filter (fun g => g.result = GameResult.Loss)).length := rfl

theorem computeStats_draws (games : List NormalizedGame) :
    (computeStats games).draws
      = (games.filter (fun g => g.result = GameResult.Draw)).length := rfl

theorem computeStats_whiteGames (games : List NormalizedGame) :
    (computeStats games).whiteGames
      = (games.filter (fun g => g.color = Color.White)).length := rfl

theorem computeStats_blackGames (games : List NormalizedGame) :
    (computeStats games).blackGames
      = (games.filter (fun g => g.color = Color.Black)).length := rfl

theorem computeStats_whiteWins (games : List NormalizedGame) :
    (computeStats games).whiteWins
      = ((games.filter (fun g => g.color = Color.White)).filter
          (fun g => g.result = GameResult.Win)).length := rfl

theorem computeStats_blackWins (games : List NormalizedGame) :
    (computeStats games).blackWins
      = ((games.filter (fun g => g.color = Color.Black)).filter
          (fun g => g.result = GameResult.Win)).length := rfl

theorem computeStats_overallWinRate (games : List NormalizedGame) :
    (computeStats games).overallWinRate
      = winRate (games.filter (fun g => g.result = GameResult.Win)).length games.length := rfl

theorem computeStats_winRateWhite (games : List NormalizedGame) :
    (computeStats games).winRateWhite
      = winRate ((games.filter (fun g => g.color = Color.White)).filter
          (fun g => g.result = GameResult.Win)).length
          (games.filter (fun g => g.color = Color.White)).length := rfl

theorem computeStats_winRateBlack (games : List NormalizedGame) :
    (computeStats games).winRateBlack
      = winRate ((games.filter (fun g => g.color = Color.Black)).filter
          (fun g => g.result = GameResult.Win)).length
          (games.filter (fun g => g.color = Color.Black)).length := rfl

theorem computeStats_mostPlayedOpenings (games : List NormalizedGame) :
    (computeStats games).mostPlayedOpenings
      = (List.insertionSort (fun a b => b.total ≤ a.total) (buildOpeningMap games)).take 5 := rfl

theorem computeStats_bestOpening (games : List NormalizedGame) :
    (computeStats games).bestOpening
      = (if ((buildOpeningMap games).filter
            (fun o => o.total ≥ MIN_GAMES_FOR_BEST_WORST)).length > 0 then
          jsReduce bestReducer
            ((buildOpeningMap games).filter (fun o => o.total ≥ MIN_GAMES_FOR_BEST_WORST))
        else if (buildOpeningMap games).length > 0 then
          (List.insertionSort (fun a b : OpeningStats => b.winRate ≤ a.winRate)
            (buildOpeningMap games)).head?
        else none) := rfl

theorem computeStats_worstOpening (games : List NormalizedGame) :
    (computeStats games).worstOpening
      = (if ((buildOpeningMap games).filter
            (fun o => o.total ≥ MIN_GAMES_FOR_BEST_WORST)).length > 0 then
          jsReduce worstReducer
            ((buildOpeningMap games).filter (fun o => o.total ≥ MIN_GAMES_FOR_BEST_WORST))
        else if (buildOpeningMap games).length > 0 then
          (List.insertionSort (fun a b : OpeningStats => a.winRate ≤ b.winRate)
            (buildOpeningMap games)).head?
        else none) := rfl

/-! ## Partition lemmas: results and colors are exhaustive and disjoint -/

theorem filter_result_partition (games : List NormalizedGame) :
    (games.filter (fun g => g.result = GameResult.Win)).length
      + (games.filter (fun g => g.result = GameResult.Loss)).length
      + (games.filter (fun g => g.result = GameResult.Draw)).length
      = games.length := by
  induction games with
  | nil => rfl
  | cons g gs ih =>
    cases h : g.result <;> simp [List.filter_cons, h] <;> omega

theorem filter_color_partition (games : List NormalizedGame) :
    (games.filter (fun g => g.color = Color.White)).length
      + (games.filter (fun g => g.color = Color.Black)).length
      = games.length := by
  induction games with
  | nil => rfl
  | cons g gs ih =>
    cases h : g.color <;> simp [List.filter_cons, h] <;> omega

theorem filter_color_win_partition (games : List NormalizedGame) :
    ((games.filter (fun g => g.color = Color.White)).filter
        (fun g => g.result = GameResult.Win)).length
      + ((games.filter (fun g => g.color = Color.Black)).filter
          (fun g => g.result = GameResult.Win)).length
      = (games.filter (fun g => g.result = GameResult.Win)).length := by
  induction games with
  | nil => rfl
  | cons g gs ih =>
    simp only [List.filter_filter] at ih ⊢
    cases hc : g.color <;> cases hr : g.result <;>
      simp [List.filter_cons, hc, hr] <;> omega

/-! ## Membership and selection lemmas for best/worst openings -/

theorem foldl_choice_mem {α : Type} {f : α → α → α}
    (hf : ∀ a b, f a b = a ∨ f a b = b) :
    ∀ (xs : List α) (a : α), xs.foldl f a = a ∨ xs.foldl f a ∈ xs := by
  intro xs
  induction xs with
  | nil => intro a; exact Or.inl rfl
  | cons x xs ih =>
    intro a
    rcases ih (f a x) with h | h
    · rcases hf a x with h' | h'
      · rw [List.foldl_cons]
        rw [h, h']
        exact Or.inl rfl
      · rw [List.foldl_cons, h, h']
        exact Or.inr (List.mem_cons_self x xs)
    · exact Or.inr (List.mem_cons_of_mem x h)

theorem bestReducer_choice (a b : OpeningStats) : bestReducer a b = a ∨ bestReducer a b = b := by
  unfold bestReducer
  split
  · exact Or.inr rfl
  · exact Or.inl rfl

theorem worstReducer_choice (a b : OpeningStats) :
    worstReducer a b = a ∨ worstReducer a b = b := by
  unfold worstReducer
  split
  · exact Or.inr rfl
  · exact Or.inl rfl

theorem jsReduce_mem {α : Type} {f : α → α → α} (hf : ∀ a b, f a b = a ∨ f a b = b)
    {xs : List α} {r : α} (h : jsReduce f xs = some r) : r ∈ xs := by
  cases xs with
  | nil => simp [jsReduce] at h
  | cons x xs =>
    simp only [jsReduce, Option.some.injEq] at h
    rcases foldl_choice_mem hf xs x with h' | h'
    · rw [← h, h']
      exact List.mem_cons_self x xs
    · rw [← h]
      exact List.mem_cons_of_mem x h'

theorem insertionSort_head_spec {α : Type} (r : α → α → Prop) [DecidableRel r]
    (htot : ∀ a b, r a b ∨ r b a) (htrans : ∀ a b c, r a b → r b c → r a c)
    {l : List α} {b : α} (h : (List.insertionSort r l).head? = some b) :
    b ∈ l ∧ ∀ o ∈ l, r b o := by
  haveI : IsTotal α r := ⟨htot⟩
  haveI : IsTrans α r := ⟨htrans⟩
  have hsorted := List.sorted_insertionSort r l
  cases hs : List.insertionSort r l with
  | nil => rw [hs] at h; simp at h
  | cons x t =>
    rw [hs] at h
    simp only [List.head?_cons, Option.some.injEq] at h
    rw [h] at hs
    rw [hs] at hsorted
    constructor
    · have : b ∈ List.insertionSort r l := by rw [hs]; exact List.mem_cons_self b t
      exact (List.mem_insertionSort r).mp this
    · intro o ho
      have : o ∈ List.insertionSort r l := (List.mem_insertionSort r).mpr ho
      rw [hs] at this
      rcases List.mem_cons.mp this with h' | h'
      · subst h'
        rcases htot o o with h' | h' <;> exact h'
      · exact List.rel_of_sorted_cons hsorted o h'

theorem bestOpening_mem {games : List NormalizedGame} {b : OpeningStats}
    (h : (computeStats games).bestOpening = some b) : b ∈ buildOpeningMap games := by
  rw [computeStats_bestOpening] at h
  split at h
  · have := jsReduce_mem bestReducer_choice h
    exact (List.mem_filter.mp this).1
  · split at h
    · have := insertionSort_head_spec (fun a b : OpeningStats => b.winRate ≤ a.winRate)
        (fun a b => le_total b.winRate a.winRate)
        (fun a b c h1 h2 => le_trans h2 h1) h
      exact this.1
    · simp at h

theorem worstOpening_mem {games : List NormalizedGame} {w : OpeningStats}
    (h : (computeStats games).worstOpening = some w) : w ∈ buildOpeningMap games := by
  rw [computeStats_worstOpening] at h
  split at h
  · have := jsReduce_mem worstReducer_choice h
    exact (List.mem_filter.mp this).1
  · split at h
    · have := insertionSort_head_spec (fun a b : OpeningStats => a.winRate ≤ b.winRate)
        (fun a b => le_total a.winRate b.winRate)
        (fun a b c h1 h2 => le_trans h1 h2) h
      exact this.1
    · simp at h

theorem mostPlayed_mem {games : List NormalizedGame} {o : OpeningStats}
    (h : o ∈ (computeStats games).mostPlayedOpenings) : o ∈ buildOpeningMap games := by
  rw [computeStats_mostPlayedOpenings] at h
  have := List.take_subset 5 _ h
  exact (List.mem_insertionSort _).mp this

/-! ## The selection order realised by the two `reduce` callbacks -/

/-- "`a` is no better than `b`" for the best-opening selection: lower
`winRate`, or equal `winRate` and no larger `total`. -/
def bestLe (a b : OpeningStats) : Prop :=
  a.winRate < b.winRate ∨ (a.winRate = b.winRate ∧ a.total ≤ b.total)

/-- "`a` is no worse than `b`" for the worst-opening selection: higher
`winRate`, or equal `winRate` and no larger `total`. -/
def worstLe (a b : OpeningStats) : Prop :=
  b.winRate < a.winRate ∨ (a.winRate = b.winRate ∧ a.total ≤ b.total)

theorem bestLe_refl (a : OpeningStats) : bestLe a a := Or.inr ⟨rfl, le_refl _⟩

theorem worstLe_refl (a : OpeningStats) : worstLe a a := Or.inr ⟨rfl, le_refl _⟩

theorem bestLe_trans {a b c : OpeningStats} (h1 : bestLe a b) (h2 : bestLe b c) :
    bestLe a c := by
  rcases h1 with h1 | ⟨e1, t1⟩ <;> rcases h2 with h2 | ⟨e2, t2⟩
  · exact Or.inl (lt_trans h1 h2)
  · exact Or.inl (lt_of_lt_of_eq h1 e2)
  · exact Or.inl (lt_of_eq_of_lt e1 h2)
  · exact Or.inr ⟨e1.trans e2, le_trans t1 t2⟩

theorem worstLe_trans {a b c : OpeningStats} (h1 : worstLe a b) (h2 : worstLe b c) :
    worstLe a c := by
  rcases h1 with h1 | ⟨e1, t1⟩ <;> rcases h2 with h2 | ⟨e2, t2⟩
  · exact Or.inl (lt_trans h2 h1)
  · exact Or.inl (lt_of_eq_of_lt e2.symm h1)
  · exact Or.inl (lt_of_lt_of_eq h2 e1.symm)
  · exact Or.inr ⟨e1.trans e2, le_trans t1 t2⟩

theorem bestReducer_le_left (a b : OpeningStats) : bestLe a (bestReducer a b) := by
  unfold bestReducer
  split
  · rename_i hcond
    rcases hcond with h | ⟨he, ht⟩
    · exact Or.inl h
    · exact Or.inr ⟨he.symm, le_of_lt ht⟩
  · exact bestLe_refl a

theorem bestReducer_le_right (a b : OpeningStats) : bestLe b (bestReducer a b) := by
  unfold bestReducer
  split
  · exact bestLe_refl b
  · rename_i hcond
    push_neg at hcond
    rcases hcond with ⟨hle, himp⟩
    rcases lt_or_eq_of_le hle with h | h
    · exact Or.inl h
    · exact Or.inr ⟨h, himp h⟩

theorem worstReducer_le_left (a b : OpeningStats) : worstLe a (worstReducer a b) := by
  unfold worstReducer
  split
  · rename_i hcond
    rcases hcond with h | ⟨he, ht⟩
    · exact Or.inl h
    · exact Or.inr ⟨he.symm, le_of_lt ht⟩
  · exact worstLe_refl a

theorem worstReducer_le_right (a b : OpeningStats) : worstLe b (worstReducer a b) := by
  unfold worstReducer
  split
  · exact worstLe_refl b
  · rename_i hcond
    push_neg at hcond
    rcases hcond with ⟨hle, himp⟩
    rcases lt_or_eq_of_le hle with h | h
    · exact Or.inl h
    · exact Or.inr ⟨h.symm, himp h.symm⟩

theorem foldl_bestReducer_spec (xs : List OpeningStats) :
    ∀ (a : OpeningStats), ∀ y ∈ a :: xs, bestLe y (xs.foldl bestReducer a) := by
  induction xs with
  | nil =>
    intro a y hy
    simp only [List.mem_singleton] at hy
    subst hy
    exact bestLe_refl y
  | cons x xs ih =>
    intro a y hy
    rw [List.foldl_cons]
    rcases List.mem_cons.mp hy with rfl | hy'
    · exact bestLe_trans (bestReducer_le_left y x)
        (ih (bestReducer y x) _ (List.mem_cons_self _ _))
    · rcases List.mem_cons.mp hy' with rfl | hy''
      · exact bestLe_trans (bestReducer_le_right a y)
          (ih (bestReducer a y) _ (List.mem_cons_self _ _))
      · exact ih (bestReducer a x) y (List.mem_cons_of_mem _ hy'')

theorem foldl_worstReducer_spec (xs : List OpeningStats) :
    ∀ (a : OpeningStats), ∀ y ∈ a :: xs, worstLe y (xs.foldl worstReducer a) := by
  induction xs with
  | nil =>
    intro a y hy
    simp only [List.mem_singleton] at hy
    subst hy
    exact worstLe_refl y
  | cons x xs ih =>
    intro a y hy
    rw [List.foldl_cons]
    rcases List.mem_cons.mp hy with rfl | hy'
    · exact worstLe_trans (worstReducer_le_left y x)
        (ih (worstReducer y x) _ (List.mem_cons_self _ _))
    · rcases List.mem_cons.mp hy' with rfl | hy''
      · exact worstLe_trans (worstReducer_le_right a y)
          (ih (worstReducer a y) _ (List.mem_cons_self _ _))
      · exact ih (worstReducer a x) y (List.mem_cons_of_mem _ hy'')

theorem jsReduce_best_spec {xs : List OpeningStats} {r : OpeningStats}
    (h : jsReduce bestReducer xs = some r) : r ∈ xs ∧ ∀ y ∈ xs, bestLe y r := by
  refine ⟨jsReduce_mem bestReducer_choice h, ?_⟩
  cases xs with
  | nil => simp [jsReduce] at h
  | cons x xs =>
    simp only [jsReduce, Option.some.injEq] at h
    intro y hy
    rw [← h]
    exact foldl_bestReducer_spec xs x y hy

theorem jsReduce_worst_spec {xs : List OpeningStats} {r : OpeningStats}
    (h : jsReduce worstReducer xs = some r) : r ∈ xs ∧ ∀ y ∈ xs, worstLe y r := by
  refine ⟨jsReduce_mem worstReducer_choice h, ?_⟩
  cases xs with
  | nil => simp [jsReduce] at h
  | cons x xs =>
    simp only [jsReduce, Option.some.injEq] at h
    intro y hy
    rw [← h]
    exact foldl_worstReducer_spec xs x y hy

/-! ## Helpers about whitespace scanning -/

theorem dropWhile_eq_nil_of_all {p : Char → Bool} :
    ∀ {l : List Char}, (∀ c ∈ l, p c) → l.dropWhile p = [] := by
  intro l h
  induction l with
  | nil => rfl
  | cons c rest ih =>
    rw [List.dropWhile_cons]
    rw [if_pos (h c (List.mem_cons_self c rest))]
    exact ih fun x hx => h x (List.mem_cons_of_mem c hx)

theorem jsTrim_of_all_ws {l : List Char} (h : ∀ c ∈ l, jsWhitespaceChar c) :
    jsTrim l = [] := by
  unfold jsTrim
  rw [dropWhile_eq_nil_of_all h]
  rfl

/-! ## Spec-side model of the claimed ECO-URL extraction -/

/-- Modelled from the spec: the claimed Chess.com ECO-URL opening
resolution — "extract the path segment after `/openings/`, replace
hyphens with spaces (but insert a space before digit sequences so move
numbers stay legible), trim", with `"Unknown"` when nothing matches or
parsing fails.  (`urlPathname` models the platform URL builtin the code
calls.) -/
def specEcoOpening (ecoUrl : String) : String :=
  match urlPathname ecoUrl with
  | none => "Unknown"
  | some pathname =>
    let seg := splitIndexOne "/openings/".toList pathname.toList
    let cleaned := jsTrim (replaceHyphens (replaceHyphenDigit seg))
    if cleaned.isEmpty then "Unknown" else String.mk cleaned

/-- Modelled from the spec as amended: the same claimed extraction
without the final trim (which the source never performs). -/
def specEcoOpeningNoTrim (ecoUrl : String) : String :=
  match urlPathname ecoUrl with
  | none => "Unknown"
  | some pathname =>
    let seg := splitIndexOne "/openings/".toList pathname.toList
    let cleaned := replaceHyphens (replaceHyphenDigit seg)
    if cleaned.isEmpty then "Unknown" else String.mk cleaned

/-! ## Concrete records used to instantiate the theorems -/

/-- A won game under a given opening. -/
def demoWin (o : String) : NormalizedGame :=
  ⟨Platform.chesscom, GameResult.Win, Color.White, o, 0, 10⟩

/-- A lost game under a given opening. -/
def demoLoss (o : String) : NormalizedGame :=
  ⟨Platform.chesscom, GameResult.Loss, Color.Black, o, 0, 20⟩

/-- A small game list: one opening with two games, one with a single
game. -/
def demoGames : List NormalizedGame :=
  [demoWin "Italian Game", demoLoss "Italian Game", demoWin "Caro-Kann"]

/-- An aborted, winner-less Lichess record. -/
def demoLichessAborted : LichessGame :=
  ⟨⟨⟨some ⟨"Bob", "bob"⟩, none, none⟩, ⟨some ⟨"Eve", "eve"⟩, none, none⟩⟩,
    none, "aborted", none, 0, none, none⟩

/-- A decided Lichess record: White wins, viewer is White. -/
def demoLichessWhiteWin : LichessGame :=
  ⟨⟨⟨some ⟨"Bob", "bob"⟩, none, none⟩, ⟨some ⟨"Eve", "eve"⟩, none, none⟩⟩,
    some LichessColor.white, "mate", none, 0, none, none⟩

/-- A Lichess record whose `moves` field is whitespace only. -/
def demoLichessWsMoves : LichessGame :=
  ⟨⟨⟨some ⟨"Bob", "bob"⟩, none, none⟩, ⟨some ⟨"Eve", "eve"⟩, none, none⟩⟩,
    none, "started", none, 0, some "   ", none⟩

/-- A Chess.com record carrying the Italian-Game ECO URL. -/
def demoChessComItalian : ChessComGame :=
  ⟨⟨"Alice", "win", 1000⟩, ⟨"Bob", "checkmated", 1000⟩, 0, none,
    some "https://www.chess.com/openings/Italian-Game-Giuoco-Piano-4...Nf6"⟩

/-- A Chess.com record whose ECO URL path ends in a hyphen. -/
def demoChessComTrailingHyphen : ChessComGame :=
  ⟨⟨"Alice", "win", 1000⟩, ⟨"Bob", "checkmated", 1000⟩, 0, none,
    some "https://www.chess.com/openings/Sicilian-Defense-"⟩

/-- A Chess.com record with no PGN and no ECO URL. -/
def demoChessComBare : ChessComGame :=
  ⟨⟨"Alice", "win", 1000⟩, ⟨"Bob", "checkmated", 1000⟩, 0, none, none⟩

/-- A Chess.com record whose PGN is headerless move text. -/
def demoChessComHeaderless : ChessComGame :=
  ⟨⟨"Alice", "win", 1000⟩, ⟨"Bob", "checkmated", 1000⟩, 0, some "1. e4 e5 2. Nf3", none⟩

/-! ## Claim theorems -/

/-- C1, counterexample: the claim "a `winRate` equals 0 exactly when the
corresponding total equals 0" fails — a list holding a single loss has
`overallWinRate = 0` while `totalGames = 1`. -/
theorem winRate_zero_despite_total_pos :
    (computeStats [demoLoss "Italian Game"]).overallWinRate = 0
      ∧ (computeStats [demoLoss "Italian Game"]).totalGames ≠ 0 := by
  constructor
  · rw [computeStats_overallWinRate]
    have h0 : (List.filter (fun g => g.result = GameResult.Win)
        [demoLoss "Italian Game"]).length = 0 := by decide
    rw [h0]
    norm_num [winRate, jsRound]
  · rw [computeStats_totalGames]
    simp [demoLoss, demoGames]

/-- C1 (amended): every winRate `computeStats` produces — overall,
White-only, Black-only, and on every opening entry (table, most-played,
best, worst) — lies in [0, 100], and a zero total forces a zero winRate
(the converse direction of the original claim fails, see the
counterexample). -/
theorem computeStats_winRate_bounds (games : List NormalizedGame) :
    ((0 ≤ (computeStats games).overallWinRate ∧ (computeStats games).overallWinRate ≤ 100)
      ∧ ((computeStats games).totalGames = 0 → (computeStats games).overallWinRate = 0))
    ∧ ((0 ≤ (computeStats games).winRateWhite ∧ (computeStats games).winRateWhite ≤ 100)
      ∧ ((computeStats games).whiteGames = 0 → (computeStats games).winRateWhite = 0))
    ∧ ((0 ≤ (computeStats games).winRateBlack ∧ (computeStats games).winRateBlack ≤ 100)
      ∧ ((computeStats games).blackGames = 0 → (computeStats games).winRateBlack = 0))
    ∧ (∀ o ∈ buildOpeningMap games,
        (0 ≤ o.winRate ∧ o.winRate ≤ 100) ∧ (o.total = 0 → o.winRate = 0))
    ∧ (∀ o ∈ (computeStats games).mostPlayedOpenings, 0 ≤ o.winRate ∧ o.winRate ≤ 100)
    ∧ (∀ b, (computeStats games).bestOpening = some b → 0 ≤ b.winRate ∧ b.winRate ≤ 100)
    ∧ (∀ w, (computeStats games).worstOpening = some w → 0 ≤ w.winRate ∧ w.winRate ≤ 100) := by
  have hentry : ∀ o ∈ buildOpeningMap games,
      (0 ≤ o.winRate ∧ o.winRate ≤ 100) ∧ (o.total = 0 → o.winRate = 0) := by
    intro o ho
    rcases buildOpeningMap_spec games o ho with ⟨h1, h2, h3⟩
    refine ⟨⟨?_, ?_⟩, ?_⟩
    · rw [h3]; exact winRate_nonneg _ _
    · rw [h3]; exact winRate_le_100 (entryInv_wins_le h1)
    · intro h0; omega
  refine ⟨⟨⟨?_, ?_⟩, ?_⟩, ⟨⟨?_, ?_⟩, ?_⟩, ⟨⟨?_, ?_⟩, ?_⟩, hentry, ?_, ?_, ?_⟩
  · rw [computeStats_overallWinRate]; exact winRate_nonneg _ _
  · rw [computeStats_overallWinRate]
    exact winRate_le_100 (List.length_filter_le _ _)
  · intro h
    rw [computeStats_totalGames] at h
    rw [computeStats_overallWinRate, h]
    exact winRate_total_zero _
  · rw [computeStats_winRateWhite]; exact winRate_nonneg _ _
  · rw [computeStats_winRateWhite]
    exact winRate_le_100 (List.length_filter_le _ _)
  · intro h
    rw [computeStats_whiteGames] at h
    rw [computeStats_winRateWhite, h]
    exact winRate_total_zero _
  · rw [computeStats_winRateBlack]; exact winRate_nonneg _ _
  · rw [computeStats_winRateBlack]
    exact winRate_le_100 (List.length_filter_le _ _)
  · intro h
    rw [computeStats_blackGames] at h
    rw [computeStats_winRateBlack, h]
    exact winRate_total_zero _
  · intro o ho
    exact (hentry o (mostPlayed_mem ho)).1
  · intro b hb
    exact (hentry b (bestOpening_mem hb)).1
  · intro w hw
    exact (hentry w (worstOpening_mem hw)).1

/-- C1 witness: the zero-total conjunct applied at the empty list. -/
theorem computeStats_winRate_bounds_witness : (computeStats []).overallWinRate = 0 :=
  (computeStats_winRate_bounds []).1.2 rfl

/-- C2: `wins + losses + draws = totalGames` for the overall summary,
and `wins + losses + draws = total` on every opening entry the
aggregator produces (opening table, most-played list, best and worst
selections). -/
theorem computeStats_count_invariants (games : List NormalizedGame) :
    ((computeStats games).wins + (computeStats games).losses + (computeStats games).draws
      = (computeStats games).totalGames)
    ∧ (∀ o ∈ buildOpeningMap games, o.wins + o.losses + o.draws = o.total)
    ∧ (∀ o ∈ (computeStats games).mostPlayedOpenings, o.wins + o.losses + o.draws = o.total)
    ∧ (∀ b, (computeStats games).bestOpening = some b → b.wins + b.losses + b.draws = b.total)
    ∧ (∀ w, (computeStats games).worstOpening = some w
        → w.wins + w.losses + w.draws = w.total) := by
  have hentry : ∀ o ∈ buildOpeningMap games, o.wins + o.losses + o.draws = o.total :=
    fun o ho => (buildOpeningMap_spec games o ho).1
  refine ⟨?_, hentry, ?_, ?_, ?_⟩
  · rw [computeStats_wins, computeStats_losses, computeStats_draws, computeStats_totalGames]
    exact filter_result_partition games
  · intro o ho
    exact hentry o (mostPlayed_mem ho)
  · intro b hb
    exact hentry b (bestOpening_mem hb)
  · intro w hw
    exact hentry w (worstOpening_mem hw)

/-- C2 witness: the opening-table conjunct applied at the demo list and
its Italian-Game entry. -/
theorem computeStats_count_invariants_witness :
    (⟨"Italian Game", 2, 1, 1, 0, 50⟩ : OpeningStats).wins
        + (⟨"Italian Game", 2, 1, 1, 0, 50⟩ : OpeningStats).losses
        + (⟨"Italian Game", 2, 1, 1, 0, 50⟩ : OpeningStats).draws
      = (⟨"Italian Game", 2, 1, 1, 0, 50⟩ : OpeningStats).total :=
  (computeStats_count_invariants demoGames).2.1 ⟨"Italian Game", 2, 1, 1, 0, 50⟩ (by
    have h12 : winRate 1 2 = 50 := by norm_num [winRate, jsRound]
    simp [buildOpeningMap, addGameToMap, tallyResult, demoGames, demoWin, demoLoss, h12])

/-- C7: the aggregator is a pure function of its input list — equal
(unmutated) inputs give identical output; in this value-level embedding
the input collection itself is never modified by construction. -/
theorem computeStats_deterministic (games1 games2 : List NormalizedGame)
    (h : games1 = games2) : computeStats games1 = computeStats games2 := by
  rw [h]

/-- C7 witness: the determinism theorem applied at the demo list. -/
theorem computeStats_deterministic_witness :
    computeStats demoGames = computeStats demoGames :=
  computeStats_deterministic demoGames demoGames rfl

/-- C9: every game lands in exactly one colour bucket
(`whiteGames + blackGames = totalGames`) and every win in exactly one
per-colour win count (`whiteWins + blackWins = wins`). -/
theorem computeStats_color_partition (games : List NormalizedGame) :
    (computeStats games).whiteGames + (computeStats games).blackGames
        = (computeStats games).totalGames
    ∧ (computeStats games).whiteWins + (computeStats games).blackWins
        = (computeStats games).wins := by
  constructor
  · rw [computeStats_whiteGames, computeStats_blackGames, computeStats_totalGames]
    exact filter_color_partition games
  · rw [computeStats_whiteWins, computeStats_blackWins, computeStats_wins]
    exact filter_color_win_partition games

theorem jsReduce_of_ne_nil {α : Type} (f : α → α → α) {xs : List α} (h : xs ≠ []) :
    ∃ r, jsReduce f xs = some r := by
  cases xs with
  | nil => exact absurd rfl h
  | cons x xs => exact ⟨xs.foldl f x, rfl⟩

/-- C3: best/worst opening selection.  If some opening group reaches the
sample floor (`total ≥ 2`), best is a qualified opening that is
`bestLe`-maximal (highest winRate, ties to the higher total) and worst a
qualified opening that is `worstLe`-maximal (lowest winRate, ties to the
higher total).  If no group qualifies but groups exist, best/worst are a
highest- resp. lowest-winRate group ignoring the floor.  On the empty
game list both are `none`. -/
theorem computeStats_bestWorst_selection (games : List NormalizedGame) :
    ((buildOpeningMap games).filter (fun o => o.total ≥ MIN_GAMES_FOR_BEST_WORST) ≠ [] →
      (∃ b, (computeStats games).bestOpening = some b
        ∧ b ∈ (buildOpeningMap games).filter (fun o => o.total ≥ MIN_GAMES_FOR_BEST_WORST)
        ∧ ∀ o ∈ (buildOpeningMap games).filter (fun o => o.total ≥ MIN_GAMES_FOR_BEST_WORST),
            bestLe o b)
      ∧ (∃ w, (computeStats games).worstOpening = some w
        ∧ w ∈ (buildOpeningMap games).filter (fun o => o.total ≥ MIN_GAMES_FOR_BEST_WORST)
        ∧ ∀ o ∈ (buildOpeningMap games).filter (fun o => o.total ≥ MIN_GAMES_FOR_BEST_WORST),
            worstLe o w))
    ∧ ((buildOpeningMap games).filter (fun o => o.total ≥ MIN_GAMES_FOR_BEST_WORST) = [] →
        buildOpeningMap games ≠ [] →
      (∃ b, (computeStats games).bestOpening = some b ∧ b ∈ buildOpeningMap games
        ∧ ∀ o ∈ buildOpeningMap games, o.winRate ≤ b.winRate)
      ∧ (∃ w, (computeStats games).worstOpening = some w ∧ w ∈ buildOpeningMap games
        ∧ ∀ o ∈ buildOpeningMap games, w.winRate ≤ o.winRate))
    ∧ (games = [] →
        (computeStats games).bestOpening = none ∧ (computeStats games).worstOpening = none) := by
  refine ⟨?_, ?_, ?_⟩
  · intro hq
    have hlen : ((buildOpeningMap games).filter
        (fun o => o.total ≥ MIN_GAMES_FOR_BEST_WORST)).length > 0 :=
      List.length_pos.mpr hq
    constructor
    · obtain ⟨b, hb⟩ := jsReduce_of_ne_nil bestReducer hq
      refine ⟨b, ?_, (jsReduce_best_spec hb).1, (jsReduce_best_spec hb).2⟩
      rw [computeStats_bestOpening, if_pos hlen]
      exact hb
    · obtain ⟨w, hw⟩ := jsReduce_of_ne_nil worstReducer hq
      refine ⟨w, ?_, (jsReduce_worst_spec hw).1, (jsReduce_worst_spec hw).2⟩
      rw [computeStats_worstOpening, if_pos hlen]
      exact hw
  · intro hq hmap
    have hqlen : ¬ ((buildOpeningMap games).filter
        (fun o => o.total ≥ MIN_GAMES_FOR_BEST_WORST)).length > 0 := by
      rw [hq]
      simp
    have hmaplen : (buildOpeningMap games).length > 0 := List.length_pos.mpr hmap
    constructor
    · have hsortlen : (List.insertionSort (fun a b : OpeningStats => b.winRate ≤ a.winRate)
          (buildOpeningMap games)).length > 0 := by
        rw [List.length_insertionSort]
        exact hmaplen
      obtain ⟨b, hb⟩ : ∃ b, (List.insertionSort (fun a b : OpeningStats => b.winRate ≤ a.winRate)
          (buildOpeningMap games)).head? = some b := by
        cases hs : List.insertionSort (fun a b : OpeningStats => b.winRate ≤ a.winRate)
            (buildOpeningMap games) with
        | nil => rw [hs] at hsortlen; simp at hsortlen
        | cons x t => exact ⟨x, rfl⟩
      have hspec := insertionSort_head_spec (fun a b : OpeningStats => b.winRate ≤ a.winRate)
        (fun a b => le_total b.winRate a.winRate)
        (fun a b c h1 h2 => le_trans h2 h1) hb
      refine ⟨b, ?_, hspec.1, hspec.2⟩
      rw [computeStats_bestOpening, if_neg hqlen, if_pos hmaplen]
      exact hb
    · have hsortlen : (List.insertionSort (fun a b : OpeningStats => a.winRate ≤ b.winRate)
          (buildOpeningMap games)).length > 0 := by
        rw [List.length_insertionSort]
        exact hmaplen
      obtain ⟨w, hw⟩ : ∃ w, (List.insertionSort (fun a b : OpeningStats => a.winRate ≤ b.winRate)
          (buildOpeningMap games)).head? = some w := by
        cases hs : List.insertionSort (fun a b : OpeningStats => a.winRate ≤ b.winRate)
            (buildOpeningMap games) with
        | nil => rw [hs] at hsortlen; simp at hsortlen
        | cons x t => exact ⟨x, rfl⟩
      have hspec := insertionSort_head_spec (fun a b : OpeningStats => a.winRate ≤ b.winRate)
        (fun a b => le_total a.winRate b.winRate)
        (fun a b c h1 h2 => le_trans h1 h2) hw
      refine ⟨w, ?_, hspec.1, hspec.2⟩
      rw [computeStats_worstOpening, if_neg hqlen, if_pos hmaplen]
      exact hw
  · intro h
    subst h
    exact ⟨rfl, rfl⟩

/-- C3 witness: the qualified branch applied at the demo list, whose
"Italian Game" group has two games. -/
theorem computeStats_bestWorst_selection_witness :
    ∃ b, (computeStats demoGames).bestOpening = some b
      ∧ b ∈ (buildOpeningMap demoGames).filter (fun o => o.total ≥ MIN_GAMES_FOR_BEST_WORST)
      ∧ ∀ o ∈ (buildOpeningMap demoGames).filter (fun o => o.total ≥ MIN_GAMES_FOR_BEST_WORST),
          bestLe o b :=
  ((computeStats_bestWorst_selection demoGames).1 (by
    have h12 : winRate 1 2 = 50 := by norm_num [winRate, jsRound]
    have h11 : winRate 1 1 = 100 := by norm_num [winRate, jsRound]
    simp [buildOpeningMap, addGameToMap, tallyResult, demoGames, demoWin, demoLoss, h12, h11,
      MIN_GAMES_FOR_BEST_WORST])).1

/-- C4: a Lichess record with no declared winner normalizes to Draw
whatever its `status` is; with a declared winner the result is Win
exactly when the winner matches the viewer's resolved side, Loss
otherwise. -/
theorem normalizeLichessGame_result_spec (game : LichessGame) (username : String) :
    (game.winner = none → (normalizeLichessGame game username).result = GameResult.Draw)
    ∧ (∀ w, game.winner = some w →
        (normalizeLichessGame game username).result
          = if w = lichessUserColor game username then GameResult.Win else GameResult.Loss) := by
  constructor
  · intro h
    simp only [normalizeLichessGame, h]
  · intro w h
    simp only [normalizeLichessGame, h]

/-- C4 witness: the theorem applied to a winner-less aborted record and
to a record won by White viewed by the White player. -/
theorem normalizeLichessGame_result_spec_witness :
    (normalizeLichessGame demoLichessAborted "Bob").result = GameResult.Draw
    ∧ (normalizeLichessGame demoLichessWhiteWin "Bob").result
        = if LichessColor.white = lichessUserColor demoLichessWhiteWin "Bob" then GameResult.Win
          else GameResult.Loss :=
  ⟨(normalizeLichessGame_result_spec demoLichessAborted "Bob").1 rfl,
    (normalizeLichessGame_result_spec demoLichessWhiteWin "Bob").2 LichessColor.white rfl⟩

/-- C10: a Lichess record whose `moves` field is a non-empty string of
only whitespace normalizes to `moves = 1`, because splitting the trimmed
empty string yields one empty token. -/
theorem normalizeLichessGame_ws_moves (game : LichessGame) (username s : String)
    (h1 : game.moves = some s) (h2 : s ≠ "")
    (h3 : ∀ c ∈ s.toList, jsWhitespaceChar c) :
    (normalizeLichessGame game username).moves = 1 := by
  simp only [normalizeLichessGame, truthyString, h1]
  rw [if_neg h2]
  show ((jsSplitWs (jsTrim s.toList)).length + 1) / 2 = 1
  rw [jsTrim_of_all_ws h3]
  rfl

/-- C10 witness: the theorem applied to the record whose `moves` is
three spaces. -/
theorem normalizeLichessGame_ws_moves_witness :
    (normalizeLichessGame demoLichessWsMoves "Bob").moves = 1 :=
  normalizeLichessGame_ws_moves demoLichessWsMoves "Bob" "   " rfl (by decide) (by decide)

/-- A Chess.com record whose `eco` field is not a parsable URL. -/
def demoChessComBadEco : ChessComGame :=
  ⟨⟨"Alice", "win", 1000⟩, ⟨"Bob", "checkmated", 1000⟩, 0, none, some "not a url"⟩

/-- C8: the parsers are total functions (they never throw by
construction of this embedding), and each ambiguous case resolves to its
documented sentinel: missing `eco`/`pgn` give `"Unknown"` opening and 0
moves; an unparsable ECO URL gives `"Unknown"`; headerless move text
(no `Opening`/`ECOUrl`/`ECO` tag) gives `"Unknown"`; a winner-less
Lichess record gives Draw; a missing Lichess opening gives `"Unknown"`;
missing `moves` and `opening` give 0 moves. -/
theorem normalize_sentinel_spec :
    (∀ (game : ChessComGame) (u : String), game.eco = none → game.pgn = none →
      (normalizeChessComGame game u).opening = "Unknown"
        ∧ (normalizeChessComGame game u).moves = 0)
    ∧ (∀ (game : ChessComGame) (u s : String), game.eco = some s → s ≠ "" →
        urlPathname s = none → (normalizeChessComGame game u).opening = "Unknown")
    ∧ (∀ (game : ChessComGame) (u p : String), game.eco = none → game.pgn = some p →
        findTag "Opening".toList p.toList = none →
        findTag "ECOUrl".toList p.toList = none →
        findTag "ECO".toList p.toList = none →
        (normalizeChessComGame game u).opening = "Unknown")
    ∧ (∀ (game : LichessGame) (u : String), game.winner = none →
        (normalizeLichessGame game u).result = GameResult.Draw)
    ∧ (∀ (game : LichessGame) (u : String), game.opening = none →
        (normalizeLichessGame game u).opening = "Unknown")
    ∧ (∀ (game : LichessGame) (u : String), game.moves = none → game.opening = none →
        (normalizeLichessGame game u).moves = 0) := by
  refine ⟨?_, ?_, ?_, ?_, ?_, ?_⟩
  · intro game u h1 h2
    constructor <;> simp only [normalizeChessComGame, truthyString, h1, h2]
  · intro game u s h1 h2 h3
    simp only [normalizeChessComGame, truthyString, h1]
    rw [if_neg h2]
    simp only [parseOpeningFromEcoUrl, h3]
  · intro game u p h1 h2 hop hurl heco
    simp only [normalizeChessComGame, truthyString, h1, h2]
    by_cases hp : p = ""
    · rw [if_pos hp]
    · rw [if_neg hp]
      simp only [parseOpeningFromPgn, hop, hurl, heco]
  · intro game u h
    simp only [normalizeLichessGame, h]
  · intro game u h
    simp only [normalizeLichessGame, h]
  · intro game u h1 h2
    simp only [normalizeLichessGame, truthyString, h1, h2]

/-- C8 witness: the sentinel conjuncts applied to concrete records:
bare record, unparsable ECO URL, headerless PGN, and the winner-less
Lichess record. -/
theorem normalize_sentinel_spec_witness :
    ((normalizeChessComGame demoChessComBare "alice").opening = "Unknown"
      ∧ (normalizeChessComGame demoChessComBare "alice").moves = 0)
    ∧ (normalizeChessComGame demoChessComBadEco "alice").opening = "Unknown"
    ∧ (normalizeChessComGame demoChessComHeaderless "alice").opening = "Unknown"
    ∧ (normalizeLichessGame demoLichessAborted "eve").result = GameResult.Draw
    ∧ (normalizeLichessGame demoLichessAborted "eve").opening = "Unknown"
    ∧ (normalizeLichessGame demoLichessAborted "eve").moves = 0 :=
  ⟨normalize_sentinel_spec.1 demoChessComBare "alice" rfl rfl,
    normalize_sentinel_spec.2.1 demoChessComBadEco "alice" "not a url" rfl (by decide)
      (by decide),
    normalize_sentinel_spec.2.2.1 demoChessComHeaderless "alice" "1. e4 e5 2. Nf3" rfl rfl
      (by decide) (by decide) (by decide),
    normalize_sentinel_spec.2.2.2.1 demoLichessAborted "eve" rfl,
    normalize_sentinel_spec.2.2.2.2.1 demoLichessAborted "eve" rfl,
    normalize_sentinel_spec.2.2.2.2.2 demoLichessAborted "eve" rfl rfl⟩

/-- C6, counterexample: the claimed extraction ends with a trim, but the
source never trims — an ECO URL whose path ends in a hyphen yields an
opening with a trailing space, which differs from the trimmed form the
claim describes. -/
theorem ecoUrl_opening_trim_counterexample :
    (normalizeChessComGame demoChessComTrailingHyphen "alice").opening
      ≠ specEcoOpening "https://www.chess.com/openings/Sicilian-Defense-" := by decide

/-- C6 (amended): for a record carrying a (truthy) ECO URL the opening
is exactly the claimed extraction minus the final trim: path segment
after `/openings/`, hyphens to spaces with a space kept before digit
runs, `"Unknown"` on any parse failure; in particular the Italian-Game
URL yields an opening containing "Italian Game Giuoco Piano 4". -/
theorem chessComGame_ecoUrl_opening_spec :
    (∀ (game : ChessComGame) (u s : String), game.eco = some s → s ≠ "" →
      (normalizeChessComGame game u).opening = specEcoOpeningNoTrim s)
    ∧ "Italian Game Giuoco Piano 4".toList
        <:+: (normalizeChessComGame demoChessComItalian "alice").opening.toList
    ∧ (∀ s, urlPathname s = none → specEcoOpeningNoTrim s = "Unknown") := by
  refine ⟨?_, ?_, ?_⟩
  · intro game u s h1 h2
    simp only [normalizeChessComGame, truthyString, h1]
    rw [if_neg h2]
    rfl
  · exact ⟨[], "...Nf6".toList, by decide⟩
  · intro s h
    simp only [specEcoOpeningNoTrim, h]

/-- C6 witness: the amended equation applied at the Italian-Game
record. -/
theorem chessComGame_ecoUrl_opening_spec_witness :
    (normalizeChessComGame demoChessComItalian "alice").opening
      = specEcoOpeningNoTrim
          "https://www.chess.com/openings/Italian-Game-Giuoco-Piano-4...Nf6" :=
  chessComGame_ecoUrl_opening_spec.1 demoChessComItalian "alice"
    "https://www.chess.com/openings/Italian-Game-Giuoco-Piano-4...Nf6" rfl (by decide)

/-- C5: the complete aggregator output on a concrete one-win list.
`GameStats` consists of exactly the fifteen fields below; `computeStats`
takes only the game list, and no field of its output carries a trend
delta or accepts a prior-period basis. -/
theorem computeStats_full_output :
    computeStats [demoWin "Italian Game"]
      = ⟨1, 100, 100, 0, 1, 0, 0, 1, 1, 0, 0, 10, [⟨"Italian Game", 1, 1, 0, 0, 100⟩],
          some ⟨"Italian Game", 1, 1, 0, 0, 100⟩, some ⟨"Italian Game", 1, 1, 0, 0, 100⟩⟩ := by
  have h11 : winRate 1 1 = 100 := by norm_num [winRate, jsRound]
  have h00 : winRate 0 0 = 0 := rfl
  simp [computeStats, buildOpeningMap, addGameToMap, tallyResult, demoWin, jsReduce,
    MIN_GAMES_FOR_BEST_WORST, h11, h00]
  norm_num [jsRound]

end ChessAnalytics
